import Mathlib

/-!
Shallow embedding of the job-postings dashboard data pipeline
(`app_02.py`): load → derive salary fields → clean → filter →
aggregate → paginate → CSV export.  Records are rows of the source
CSV; a missing cell (pandas `NaN`) is `none`.
-/

namespace App02

/-- One row of the source dataset (`DataScientist.csv`).  Only the
columns the pipeline reads are modelled; a missing cell is `none`. -/
structure JobRecord where
  jobTitle : Option String
  companyName : Option String
  location : Option String
  salaryEstimate : Option String
  rating : Option ℚ
  sector : Option String
  size : Option String
  revenue : Option String
deriving DecidableEq

/-- Numeric value of a captured digit run, read in base 10. -/
def natOfDigits (ds : List Char) : ℕ :=
  ds.foldl (fun a c => a * 10 + (c.toNat - 48)) 0

/-- Model of `re.search("(\d+)", s)` as used by
`df['Salary Estimate'].str.extract('(\d+)')` (line 62): the first
maximal digit run anywhere in the string, as a number. -/
def firstNumAux : List Char → Option ℕ
  | [] => none
  | c :: cs =>
    if c.isDigit then some (natOfDigits (c :: cs.takeWhile Char.isDigit))
    else firstNumAux cs

def firstNumber (s : String) : Option ℕ := firstNumAux s.data

/-- Greedy `(\d+)`: the maximal digit run at the head, with the rest;
fails when the head is not a digit. -/
def digitRun (cs : List Char) : Option (List Char × List Char) :=
  if (cs.takeWhile Char.isDigit).isEmpty then none
  else some (cs.takeWhile Char.isDigit, cs.dropWhile Char.isDigit)

/-- Consume one fixed (non-capturing) character of the pattern. -/
def expectChar (c : Char) : List Char → Option (List Char)
  | d :: rest => if d = c then some rest else none
  | [] => none

/-- Attempt to match `\$(\d+)K-\$(\d+)K` starting at the head of `cs`,
returning the two captured numbers.  `(\d+)K` is the greedy digit run
followed by a literal `K` (no shorter run can succeed, since the character
after a shorter run is a digit, not `K`). -/
def matchSalaryAt (cs : List Char) : Option (ℕ × ℕ) :=
  (expectChar '$' cs).bind fun r1 =>
  (digitRun r1).bind fun p1 =>
  (expectChar 'K' p1.2).bind fun r3 =>
  (expectChar '-' r3).bind fun r4 =>
  (expectChar '$' r4).bind fun r5 =>
  (digitRun r5).bind fun p2 =>
  (expectChar 'K' p2.2).map fun _ =>
  (natOfDigits p1.1, natOfDigits p2.1)

/-- Model of `re.search(r"\$(\d+)K-\$(\d+)K", s)` as used by
`df['Salary Estimate'].str.extract(r'\$(\d+)K-\$(\d+)K')` (line 63):
try each start position from the left. -/
def searchSalary : List Char → Option (ℕ × ℕ)
  | [] => none
  | c :: cs =>
    match matchSalaryAt (c :: cs) with
    | some p => some p
    | none => searchSalary cs

def salaryPairOf (s : String) : Option (ℕ × ℕ) := searchSalary s.data

/-- Line 62: `df['Salary_Min'] = extract('(\d+)').astype(float) * 1000`. -/
def rowSalaryMin (r : JobRecord) : Option ℚ :=
  r.salaryEstimate.bind fun s => (firstNumber s).map fun (n : ℕ) => (n : ℚ) * 1000

/-- Line 63: `df['Salary_Max'] = extract(r'\$(\d+)K-\$(\d+)K').iloc[:, 1]
.astype(float) * 1000` — the second capture of the first match. -/
def rowSalaryMax (r : JobRecord) : Option ℚ :=
  r.salaryEstimate.bind fun s =>
    (salaryPairOf s).map fun (p : ℕ × ℕ) => (p.2 : ℚ) * 1000

/-- Line 64: `df['Avg_Salary'] = (df['Salary_Min'] + df['Salary_Max']) / 2`;
`NaN` (here `none`) propagates through `+` and `/`. -/
def rowAvgSalary (r : JobRecord) : Option ℚ :=
  match rowSalaryMin r, rowSalaryMax r with
  | some a, some b => some ((a + b) / 2)
  | _, _ => none

/-- The predicate of line 67's `dropna(subset=['Job Title', 'Sector', 'Rating'])`:
a row is kept when all three cells are present. -/
def keepRow (r : JobRecord) : Bool :=
  r.jobTitle.isSome && r.sector.isSome && r.rating.isSome

/-- Line 67: `df_clean = df.dropna(subset=['Job Title', 'Sector', 'Rating'])`. -/
def dfClean (df : List JobRecord) : List JobRecord := df.filter keepRow

/-- The sidebar selections: selected sectors, selected sizes, minimum rating. -/
structure FilterCriteria where
  sectors : List String
  sizes : List String
  minRating : ℚ

/-- The row predicate of lines 92–96: `Sector.isin(selected_sectors) &
Size.isin(selected_sizes) & (Rating >= min_rating)`; a missing cell fails
both `isin` and the comparison. -/
def matchesCriteria (c : FilterCriteria) (r : JobRecord) : Bool :=
  (match r.sector with | some s => decide (s ∈ c.sectors) | none => false) &&
  (match r.size with | some z => decide (z ∈ c.sizes) | none => false) &&
  (match r.rating with | some q => decide (c.minRating ≤ q) | none => false)

/-- Lines 92–96: `filtered_df = df_clean[sector-mask & size-mask & rating-mask]`. -/
def filteredView (ds : List JobRecord) (c : FilterCriteria) : List JobRecord :=
  ds.filter (matchesCriteria c)

/-- A concrete record used by several witnesses. -/
def rTest : JobRecord :=
  { jobTitle := some "Data Scientist", companyName := some "Acme",
    location := some "NY", salaryEstimate := some "$80K-$120K (Glassdoor est.)",
    rating := some 4, sector := some "Tech", size := some "Large",
    revenue := some "High" }

/-- Lines 220–225: `start_idx = (page_number - 1) * page_size;
end_idx = start_idx + page_size; iloc[start_idx:end_idx]`. -/
def paginate {α : Type} (view : List α) (pageSize pageNumber : ℕ) : List α :=
  (view.drop ((pageNumber - 1) * pageSize)).take pageSize

/-- Line 216: `total_pages = (len // page_size) + (1 if len % page_size != 0
else 0)`. -/
def totalPages (len pageSize : ℕ) : ℕ :=
  len / pageSize + (if len % pageSize ≠ 0 then 1 else 0)

/-- `len(filtered_df)` (lines 100, 109). -/
def summaryCount (v : List JobRecord) : ℕ := v.length

/-- Pandas `Series.mean()`: `NaN` entries are skipped; the mean of zero
non-`NaN` entries is `NaN` (`none`). -/
def pandasMean (xs : List (Option ℚ)) : Option ℚ :=
  let n := (xs.filter Option.isSome).length
  if n = 0 then none
  else some ((xs.foldl (fun a x => a + x.getD 0) 0) / (n : ℚ))

/-- Line 101/113: `filtered_df['Rating'].mean()`. -/
def meanRating (v : List JobRecord) : Option ℚ := pandasMean (v.map (·.rating))

/-- Line 102/111: `filtered_df['Avg_Salary'].mean()`. -/
def meanAvgSalary (v : List JobRecord) : Option ℚ := pandasMean (v.map rowAvgSalary)

/-- Line 115: `filtered_df['Company Name'].nunique()` (distinct non-null). -/
def uniqueCompanies (v : List JobRecord) : ℕ :=
  (v.filterMap (·.companyName)).dedup.length

/-- The distinct values of a column in order of first appearance (the key
order produced by `value_counts` before it sorts by count). -/
def firstOccurrences : List String → List String
  | [] => []
  | x :: xs => x :: firstOccurrences (xs.filter fun y => y ≠ x)
termination_by l => l.length
decreasing_by
  simp only [List.length_cons]
  exact Nat.lt_succ_of_le (List.length_filter_le _ _)

/-- The (value, count) table of `Series.value_counts()` before sorting:
first-appearance order, each value with its number of occurrences. -/
def valueCounts (xs : List String) : List (String × ℕ) :=
  (firstOccurrences xs).map fun v => (v, xs.count v)

/-- Stable descending insertion by count: a new pair goes before the first
existing pair whose count is ≤ its own. -/
def insertCountDesc (p : String × ℕ) : List (String × ℕ) → List (String × ℕ)
  | [] => [p]
  | q :: qs => if q.2 ≤ p.2 then p :: q :: qs else q :: insertCountDesc p qs

/-- Stable sort by count, descending (the sort inside `value_counts`). -/
def sortCountDesc : List (String × ℕ) → List (String × ℕ)
  | [] => []
  | p :: ps => insertCountDesc p (sortCountDesc ps)

/-- `value_counts().head(n)`: sort the count table descending by count
(stably) and keep the first `n` entries. -/
def topNByCount (xs : List String) (n : ℕ) : List (String × ℕ) :=
  (sortCountDesc (valueCounts xs)).take n

/-- Line 127: `filtered_df[field].value_counts().head(n)` for a column
projection (`value_counts` ignores missing cells). -/
def topField (v : List JobRecord) (proj : JobRecord → Option String) (n : ℕ) :
    List (String × ℕ) :=
  topNByCount (v.filterMap proj) n

/-! CSV export (lines 193–210): `filtered_df[available_columns]
.to_csv(index=False)` — minimal quoting: a field containing a comma,
quote, newline or carriage return is wrapped in double quotes with inner
quotes doubled; fields joined by commas, rows terminated by newlines. -/

/-- Does a field need quoting under csv `QUOTE_MINIMAL`? -/
def needsQuote (s : String) : Bool :=
  s.data.any fun c => (c == ',') || (c == '"') || (c == '\n') || (c == '\r')

/-- Double an inner quote. -/
def escapeChar (c : Char) : List Char := if c = '"' then ['"', '"'] else [c]

def escapeChars : List Char → List Char
  | [] => []
  | c :: cs => escapeChar c ++ escapeChars cs

/-- Serialize one field. -/
def encodeField (f : String) : List Char :=
  if needsQuote f then '"' :: (escapeChars f.data ++ ['"']) else f.data

/-- Serialize one row: fields joined by commas. -/
def encodeRow : List String → List Char
  | [] => []
  | f :: fs =>
    match fs with
    | [] => encodeField f
    | _ :: _ => encodeField f ++ ',' :: encodeRow fs

/-- Serialize a table: each row terminated by a newline (as `to_csv` does). -/
def encodeCsv : List (List String) → List Char
  | [] => []
  | r :: rs => encodeRow r ++ '\n' :: encodeCsv rs

/-- A CSV reader (the model of `pd.read_csv` at the text level): a state
machine over the character stream; `inQ` is the inside-quotes state,
`field` the current field buffer (reversed), `row` the current row's
finished fields (reversed), `acc` the finished rows (reversed).  Fails on
an unterminated quoted field. -/
def csvParse (l : List Char) (inQ : Bool) (field : List Char) (row : List String)
    (acc : List (List String)) : Option (List (List String)) :=
  match l with
  | [] =>
    if inQ then none
    else if field.isEmpty && row.isEmpty then some acc.reverse
    else some (((String.mk field.reverse :: row).reverse :: acc)).reverse
  | c :: cs =>
    if inQ then
      if c = '"' then
        if cs.head? = some '"' then csvParse cs.tail true ('"' :: field) row acc
        else csvParse cs false field row acc
      else csvParse cs true (c :: field) row acc
    else
      if c = ',' then csvParse cs false [] (String.mk field.reverse :: row) acc
      else if c = '\n' then
        csvParse cs false [] [] ((String.mk field.reverse :: row).reverse :: acc)
      else if c = '"' && field.isEmpty then csvParse cs true [] row acc
      else csvParse cs false (c :: field) row acc
termination_by l.length
decreasing_by
  all_goals simp only [List.length_cons, List.length_tail]
  all_goals omega

def parseCsv (l : List Char) : Option (List (List String)) :=
  csvParse l false [] [] []

/-- The fixed display-column subset (lines 193–197). -/
def displayHeader : List String :=
  ["Job Title", "Company Name", "Location", "Salary Estimate",
   "Rating", "Sector", "Size", "Revenue"]

/-- Render a cell: a missing cell is the empty output field. -/
def optStr (o : Option String) : String := o.getD ""

/-- Render the rating cell. -/
def ratStr (o : Option ℚ) : String :=
  match o with
  | some q => toString q
  | none => ""

/-- One exported row, in display-column order, without an index column. -/
def displayRow (r : JobRecord) : List String :=
  [optStr r.jobTitle, optStr r.companyName, optStr r.location,
   optStr r.salaryEstimate, ratStr r.rating, optStr r.sector,
   optStr r.size, optStr r.revenue]

/-- Line 204: `csv = filtered_df[available_columns].to_csv(index=False)`. -/
def csvExport (v : List JobRecord) : List Char :=
  encodeCsv (displayHeader :: v.map displayRow)

theorem matchesCriteria_iff (c : FilterCriteria) (r : JobRecord) :
    matchesCriteria c r = true ↔
      (∃ s, r.sector = some s ∧ s ∈ c.sectors) ∧
      (∃ z, r.size = some z ∧ z ∈ c.sizes) ∧
      (∃ q, r.rating = some q ∧ c.minRating ≤ q) := by
  unfold matchesCriteria
  cases hs : r.sector <;> cases hz : r.size <;> cases hq : r.rating <;> simp [and_assoc]

/-- C1: a record passes the filter iff its sector is among the selected
sectors, its size among the selected sizes, and its rating is at least the
minimum; an empty sector selection matches nothing; the filtered view is a
sublist of (hence preserves the order of) the cleaned dataset. -/
theorem filteredView_mem_iff_empty_sectors_order (ds : List JobRecord) (c : FilterCriteria) :
    (∀ r, r ∈ filteredView ds c ↔
      r ∈ ds ∧ (∃ s, r.sector = some s ∧ s ∈ c.sectors) ∧
        (∃ z, r.size = some z ∧ z ∈ c.sizes) ∧
        (∃ q, r.rating = some q ∧ c.minRating ≤ q)) ∧
    (c.sectors = [] → filteredView ds c = []) ∧
    (filteredView ds c).Sublist ds := by
  refine ⟨fun r => ?_, fun hsec => ?_, List.filter_sublist ds⟩
  · rw [filteredView, List.mem_filter, matchesCriteria_iff]
  · rw [filteredView, List.filter_eq_nil_iff]
    intro r _ hr
    rw [matchesCriteria_iff] at hr
    obtain ⟨⟨s, _, hs⟩, _, _⟩ := hr
    rw [hsec] at hs
    exact (List.not_mem_nil s) hs

theorem filteredView_empty_sectors_witness :
    filteredView [rTest] ⟨[], ["Large"], 3⟩ = [] :=
  (filteredView_mem_iff_empty_sectors_order [rTest] ⟨[], ["Large"], 3⟩).2.1 rfl

theorem takeWhile_append_all {p : Char → Bool} {ds rest : List Char}
    (h : ∀ c ∈ ds, p c = true) :
    (ds ++ rest).takeWhile p = ds ++ rest.takeWhile p := by
  induction ds with
  | nil => rfl
  | cons d ds ih =>
    rw [List.cons_append, List.takeWhile_cons, if_pos (h d (List.mem_cons_self _ _)),
      ih fun c hc => h c (List.mem_cons_of_mem d hc)]
    rfl

theorem takeWhile_head_not {p : Char → Bool} {rest : List Char}
    (h : ∀ c, rest.head? = some c → p c = false) :
    rest.takeWhile p = [] := by
  cases rest with
  | nil => rfl
  | cons c cs => rw [List.takeWhile_cons, if_neg (by simp [h c rfl])]

theorem expectChar_eq_some {c : Char} {cs rest : List Char}
    (h : expectChar c cs = some rest) : cs = c :: rest := by
  cases cs with
  | nil => exact absurd h (by simp [expectChar])
  | cons d ds =>
    simp only [expectChar] at h
    split at h
    · rename_i hd
      cases h
      rw [hd]
    · exact absurd h (by simp)

theorem digitRun_eq_some {cs ds rest : List Char} (h : digitRun cs = some (ds, rest)) :
    ds ≠ [] ∧ (∀ c ∈ ds, c.isDigit) ∧ cs = ds ++ rest := by
  unfold digitRun at h
  split at h
  · exact absurd h (by simp)
  · rename_i hne
    simp only [Option.some.injEq, Prod.mk.injEq] at h
    obtain ⟨h1, h2⟩ := h
    refine ⟨by rw [← h1]; simpa using hne, fun c hc => ?_, ?_⟩
    · rw [← h1] at hc
      exact List.mem_takeWhile_imp hc
    · rw [← h1, ← h2, List.takeWhile_append_dropWhile]

theorem matchSalaryAt_eq_some {cs : List Char} {a b : ℕ}
    (h : matchSalaryAt cs = some (a, b)) :
    ∃ d1 d2 post, cs = '$' :: (d1 ++ 'K' :: '-' :: '$' :: (d2 ++ 'K' :: post)) ∧
      d1 ≠ [] ∧ (∀ c ∈ d1, c.isDigit) ∧ d2 ≠ [] ∧ (∀ c ∈ d2, c.isDigit) ∧
      natOfDigits d1 = a ∧ natOfDigits d2 = b := by
  rw [matchSalaryAt, Option.bind_eq_some] at h
  obtain ⟨r1, h1, h⟩ := h
  rw [Option.bind_eq_some] at h
  obtain ⟨p1, hd1, h⟩ := h
  rw [Option.bind_eq_some] at h
  obtain ⟨r3, h3, h⟩ := h
  rw [Option.bind_eq_some] at h
  obtain ⟨r4, h4, h⟩ := h
  rw [Option.bind_eq_some] at h
  obtain ⟨r5, h5, h⟩ := h
  rw [Option.bind_eq_some] at h
  obtain ⟨p2, hd2, h⟩ := h
  rw [Option.map_eq_some'] at h
  obtain ⟨r6, h6, hab⟩ := h
  obtain ⟨ha, hb⟩ := Prod.mk.injEq .. ▸ hab
  obtain ⟨hne1, hdig1, e2⟩ :=
    digitRun_eq_some (show digitRun r1 = some (p1.1, p1.2) by rw [hd1])
  obtain ⟨hne2, hdig2, e6⟩ :=
    digitRun_eq_some (show digitRun r5 = some (p2.1, p2.2) by rw [hd2])
  refine ⟨p1.1, p2.1, r6, ?_, hne1, hdig1, hne2, hdig2, ha, hb⟩
  rw [expectChar_eq_some h1, e2, expectChar_eq_some h3, expectChar_eq_some h4,
    expectChar_eq_some h5, e6, expectChar_eq_some h6]

theorem searchSalary_eq_some : ∀ {cs : List Char} {a b : ℕ},
    searchSalary cs = some (a, b) →
    ∃ pre d1 d2 post,
      cs = pre ++ '$' :: (d1 ++ 'K' :: '-' :: '$' :: (d2 ++ 'K' :: post)) ∧
      d1 ≠ [] ∧ (∀ c ∈ d1, c.isDigit) ∧ d2 ≠ [] ∧ (∀ c ∈ d2, c.isDigit) ∧
      natOfDigits d1 = a ∧ natOfDigits d2 = b := by
  intro cs
  induction cs with
  | nil => intro a b h; exact absurd h (by simp [searchSalary])
  | cons c cs ih =>
    intro a b h
    rw [searchSalary] at h
    split at h
    · rename_i p hm
      cases h
      obtain ⟨d1, d2, post, hcs, rest⟩ := matchSalaryAt_eq_some hm
      exact ⟨[], d1, d2, post, by rw [List.nil_append]; exact hcs, rest⟩
    · obtain ⟨pre, d1, d2, post, hcs, rest⟩ := ih h
      exact ⟨c :: pre, d1, d2, post, by rw [List.cons_append, ← hcs], rest⟩

theorem firstNumAux_eq_none {cs : List Char} (h : ∀ c ∈ cs, ¬ c.isDigit) :
    firstNumAux cs = none := by
  induction cs with
  | nil => rfl
  | cons c cs ih =>
    rw [firstNumAux, if_neg (by simpa using h c (List.mem_cons_self _ _))]
    exact ih fun x hx => h x (List.mem_cons_of_mem c hx)

theorem digitRun_eq_none {cs : List Char} (h : ∀ c ∈ cs, ¬ c.isDigit) :
    digitRun cs = none := by
  rw [digitRun, if_pos]
  rw [takeWhile_head_not]
  · rfl
  · intro c hc
    cases cs with
    | nil => simp at hc
    | cons d ds =>
      simp only [List.head?_cons, Option.some.injEq] at hc
      rw [← hc]
      simpa using h d (List.mem_cons_self _ _)

theorem matchSalaryAt_eq_none {cs : List Char} (h : ∀ c ∈ cs, ¬ c.isDigit) :
    matchSalaryAt cs = none := by
  cases hx : expectChar '$' cs with
  | none => rw [matchSalaryAt, hx, Option.none_bind]
  | some r1 =>
    have hd : digitRun r1 = none := by
      refine digitRun_eq_none fun c hc => h c ?_
      rw [expectChar_eq_some hx]
      exact List.mem_cons_of_mem _ hc
    rw [matchSalaryAt, hx, Option.some_bind, hd, Option.none_bind]

theorem searchSalary_eq_none {cs : List Char} (h : ∀ c ∈ cs, ¬ c.isDigit) :
    searchSalary cs = none := by
  induction cs with
  | nil => rfl
  | cons c cs ih =>
    rw [searchSalary, matchSalaryAt_eq_none h]
    exact ih fun x hx => h x (List.mem_cons_of_mem c hx)

theorem firstNumAux_pos {pre ds rest : List Char} (hpre : ∀ c ∈ pre, ¬ c.isDigit)
    (hne : ds ≠ []) (hds : ∀ c ∈ ds, c.isDigit)
    (hrest : ∀ c, rest.head? = some c → ¬ c.isDigit) :
    firstNumAux (pre ++ ds ++ rest) = some (natOfDigits ds) := by
  induction pre with
  | nil =>
    cases ds with
    | nil => exact absurd rfl hne
    | cons d ds =>
      rw [List.nil_append, List.cons_append, firstNumAux,
        if_pos (hds d (List.mem_cons_self _ _))]
      rw [takeWhile_append_all fun c hc => hds c (List.mem_cons_of_mem d hc)]
      rw [takeWhile_head_not fun c hc => by simpa using hrest c hc, List.append_nil]
  | cons c pre ih =>
    rw [List.cons_append, List.cons_append, firstNumAux,
      if_neg (by simpa using hpre c (List.mem_cons_self _ _))]
    exact ih fun x hx => hpre x (List.mem_cons_of_mem c hx)

/-- C2: when the pattern `\$(\d+)K-\$(\d+)K` matches the salary-estimate
string, `Salary_Max` is the second captured number × 1000, and the match is
a genuine occurrence of the pattern inside the string; when the pattern
does not match, `Salary_Max` is undefined. -/
theorem salaryMax_from_pattern (r : JobRecord) (s : String) (a b : ℕ)
    (hs : r.salaryEstimate = some s) :
    (salaryPairOf s = some (a, b) →
      rowSalaryMax r = some ((b : ℚ) * 1000) ∧
      ∃ pre d1 d2 post,
        s.data = pre ++ '$' :: (d1 ++ 'K' :: '-' :: '$' :: (d2 ++ 'K' :: post)) ∧
        d1 ≠ [] ∧ (∀ c ∈ d1, c.isDigit) ∧ d2 ≠ [] ∧ (∀ c ∈ d2, c.isDigit) ∧
        natOfDigits d1 = a ∧ natOfDigits d2 = b) ∧
    (salaryPairOf s = none → rowSalaryMax r = none) := by
  constructor
  · intro hmatch
    refine ⟨?_, searchSalary_eq_some hmatch⟩
    rw [rowSalaryMax, hs, Option.some_bind, hmatch, Option.map_some']
  · intro hnone
    rw [rowSalaryMax, hs, Option.some_bind, hnone, Option.map_none']

theorem salaryMax_from_pattern_witness :
    rowSalaryMax rTest = some 120000 := by
  have h := (salaryMax_from_pattern rTest "$80K-$120K (Glassdoor est.)" 80 120 rfl).1
    (by decide)
  rw [h.1]
  norm_num

/-- C3: `Salary_Min` is the first decimal integer occurring anywhere in
the salary-estimate string, × 1000; it is undefined when the string has no
digit; and it is not in general the lower bound of the `\$..K-\$..K`
pattern (witnessed by a string with an earlier stray digit). -/
theorem salaryMin_first_number (r : JobRecord) (s : String)
    (hs : r.salaryEstimate = some s) :
    ((∀ c ∈ s.data, ¬ c.isDigit) → rowSalaryMin r = none) ∧
    (∀ pre ds rest, s.data = pre ++ ds ++ rest → (∀ c ∈ pre, ¬ c.isDigit) →
      ds ≠ [] → (∀ c ∈ ds, c.isDigit) →
      (∀ c, rest.head? = some c → ¬ c.isDigit) →
      rowSalaryMin r = some ((natOfDigits ds : ℚ) * 1000)) ∧
    (∃ r' : JobRecord, ∃ s' : String, ∃ a b : ℕ,
      r'.salaryEstimate = some s' ∧ salaryPairOf s' = some (a, b) ∧
      rowSalaryMin r' ≠ some ((a : ℚ) * 1000)) := by
  refine ⟨fun hnod => ?_, fun pre ds rest hsplit hpre hne hds hrest => ?_, ?_⟩
  · rw [rowSalaryMin, hs, Option.some_bind, firstNumber,
      firstNumAux_eq_none hnod, Option.map_none']
  · rw [rowSalaryMin, hs, Option.some_bind, firstNumber, hsplit,
      firstNumAux_pos hpre hne hds hrest, Option.map_some']
  · refine ⟨{ rTest with salaryEstimate := some "2 hr $80K-$120K" },
      "2 hr $80K-$120K", 80, 120, rfl, by decide, ?_⟩
    have hfn : firstNumber "2 hr $80K-$120K" = some 2 := rfl
    intro hcontra
    rw [rowSalaryMin] at hcontra
    simp only [Option.some_bind, hfn, Option.map_some', Option.some.injEq] at hcontra
    norm_num at hcontra

theorem salaryMin_first_number_witness :
    rowSalaryMin rTest = some 80000 := by
  have h := (salaryMin_first_number rTest "$80K-$120K (Glassdoor est.)" rfl).2.1
    ['$'] ['8', '0'] "K-$120K (Glassdoor est.)".data (by decide) (by decide)
    (by decide) (by decide) (by decide)
  have hn : natOfDigits ['8', '0'] = 80 := rfl
  rw [h, hn]
  norm_num

/-- C4: `Avg_Salary` is the mean of `Salary_Min` and `Salary_Max` and is
undefined whenever either operand is; in particular it is undefined when
the `\$..K-\$..K` pattern does not match, and all three derived fields are
undefined when the string has no digits. -/
theorem avgSalary_propagation (r : JobRecord) :
    (∀ a b : ℚ, rowSalaryMin r = some a → rowSalaryMax r = some b →
      rowAvgSalary r = some ((a + b) / 2)) ∧
    ((rowSalaryMin r = none ∨ rowSalaryMax r = none) → rowAvgSalary r = none) ∧
    (∀ s, r.salaryEstimate = some s → salaryPairOf s = none →
      rowAvgSalary r = none) ∧
    (∀ s, r.salaryEstimate = some s → (∀ c ∈ s.data, ¬ c.isDigit) →
      rowSalaryMin r = none ∧ rowSalaryMax r = none ∧ rowAvgSalary r = none) := by
  have hprop : (rowSalaryMin r = none ∨ rowSalaryMax r = none) →
      rowAvgSalary r = none := by
    intro h
    rcases h with h | h
    · rw [rowAvgSalary, h]
    · rw [rowAvgSalary, h]
      cases rowSalaryMin r <;> rfl
  refine ⟨fun a b ha hb => ?_, hprop, fun s hs hnone => ?_, fun s hs hnod => ?_⟩
  · rw [rowAvgSalary, ha, hb]
  · refine hprop (Or.inr ?_)
    rw [rowSalaryMax, hs, Option.some_bind, hnone, Option.map_none']
  · have hmin : rowSalaryMin r = none := by
      rw [rowSalaryMin, hs, Option.some_bind, firstNumber,
        firstNumAux_eq_none hnod, Option.map_none']
    have hmax : rowSalaryMax r = none := by
      rw [rowSalaryMax, hs, Option.some_bind, salaryPairOf,
        searchSalary_eq_none hnod, Option.map_none']
    exact ⟨hmin, hmax, hprop (Or.inl hmin)⟩

theorem avgSalary_propagation_witness :
    rowAvgSalary rTest = some 100000 := by
  have hse : rTest.salaryEstimate = some "$80K-$120K (Glassdoor est.)" := rfl
  have hfn : firstNumber "$80K-$120K (Glassdoor est.)" = some 80 := by decide
  have hsp : salaryPairOf "$80K-$120K (Glassdoor est.)" = some (80, 120) := by decide
  have hmin : rowSalaryMin rTest = some 80000 := by
    rw [rowSalaryMin, hse, Option.some_bind, hfn, Option.map_some']
    norm_num
  have hmax : rowSalaryMax rTest = some 120000 := by
    rw [rowSalaryMax, hse, Option.some_bind, hsp, Option.map_some']
    norm_num
  have h := (avgSalary_propagation rTest).1 80000 120000 hmin hmax
  rw [h]
  norm_num

/-- C5: every cleaned record has job title, sector and rating present;
the original count is the cleaned count plus the count of source rows
missing at least one of the three fields; filtering happens on (is a
sublist of) the already-cleaned dataset. -/
theorem dfClean_drops_exactly_missing (df : List JobRecord) :
    (∀ r ∈ dfClean df, r.jobTitle.isSome ∧ r.sector.isSome ∧ r.rating.isSome) ∧
    df.length = (dfClean df).length +
      df.countP (fun r => r.jobTitle.isNone || r.sector.isNone || r.rating.isNone) ∧
    (∀ c, (filteredView (dfClean df) c).Sublist (dfClean df)) := by
  have hmiss : ∀ r : JobRecord,
      (r.jobTitle.isNone || r.sector.isNone || r.rating.isNone) = !keepRow r := by
    intro r
    rw [keepRow]
    cases r.jobTitle <;> cases r.sector <;> cases r.rating <;> rfl
  refine ⟨fun r hr => ?_, ?_, fun c => List.filter_sublist _⟩
  · have hk := List.of_mem_filter hr
    rw [keepRow] at hk
    simp only [Bool.and_eq_true] at hk
    exact ⟨hk.1.1, hk.1.2, hk.2⟩
  · induction df with
    | nil => rfl
    | cons r df ih =>
      rw [dfClean, List.filter_cons, List.countP_cons, hmiss] at *
      rcases Bool.eq_false_or_eq_true (keepRow r) with hk | hk <;>
        simp [hk] <;> omega

theorem dfClean_drops_exactly_missing_witness :
    ([] : List JobRecord).length = (dfClean []).length +
      ([] : List JobRecord).countP
        (fun r => r.jobTitle.isNone || r.sector.isNone || r.rating.isNone) :=
  (dfClean_drops_exactly_missing []).2.1

theorem totalPages_eq_ceil {n k : ℕ} (hk : 0 < k) :
    totalPages n k = (n + k - 1) / k := by
  rw [totalPages]
  rcases Nat.eq_zero_or_pos (n % k) with hr | hr
  · rw [if_neg (by omega)]
    have hq : k * (n / k) = n := Nat.mul_div_cancel' (Nat.dvd_of_mod_eq_zero hr)
    have h1 : n + k - 1 = (k - 1) + k * (n / k) := by
      rw [hq]
      omega
    have h2 : (k - 1) / k = 0 := Nat.div_eq_of_lt (by omega)
    rw [h1, Nat.add_mul_div_left _ _ hk, h2, Nat.zero_add, Nat.add_zero]
  · rw [if_pos (by omega)]
    have hrk : n % k < k := Nat.mod_lt n hk
    have hqr : k * (n / k) + n % k = n := Nat.div_add_mod n k
    have h1 : n + k - 1 = (n % k - 1) + k * (n / k + 1) := by
      have hd : k * (n / k + 1) = k * (n / k) + k := by ring
      rw [hd]
      omega
    have h2 : (n % k - 1) / k = 0 := Nat.div_eq_of_lt (by omega)
    rw [h1, Nat.add_mul_div_left _ _ hk, h2, Nat.zero_add]

/-- C6: `paginate` returns exactly the records with indices in
`[(page-1)*size, page*size)`, clamped to the view; the page count is
`⌈len/size⌉` (as `(len+size-1)/size`), in particular `0` for an empty
view; and on a 25-record view with page size 10, page 1 is records
`[0,10)` and page 3 is records `[20,25)` — 5 records, not 10. -/
theorem paginate_indices_and_ceil {α : Type} (view : List α) (k p i : ℕ)
    (hk : 0 < k) :
    ((paginate view k p)[i]? = if i < k then view[(p - 1) * k + i]? else none) ∧
    totalPages view.length k = (view.length + k - 1) / k ∧
    totalPages 0 k = 0 ∧
    paginate (List.range 25) 10 1 = List.range 10 ∧
    paginate (List.range 25) 10 3 = [20, 21, 22, 23, 24] ∧
    (paginate (List.range 25) 10 3).length = 5 := by
  refine ⟨?_, totalPages_eq_ceil hk, ?_, by decide, by decide, by decide⟩
  · rw [paginate, List.getElem?_take, List.getElem?_drop]
  · rw [totalPages]
    simp

theorem paginate_indices_and_ceil_witness :
    paginate (List.range 25) 10 3 = [20, 21, 22, 23, 24] :=
  (paginate_indices_and_ceil (List.range 25) 10 3 0 (by decide)).2.2.2.2.1

/-- C7: an empty filter result is not an error: count and unique-company
count are zero, both means are undefined (`NaN`) rather than a crash, and
the page count is zero. -/
theorem empty_result_graceful (ds : List JobRecord) (c : FilterCriteria) (k : ℕ)
    (hk : 0 < k) (hempty : filteredView ds c = []) :
    summaryCount (filteredView ds c) = 0 ∧
    meanRating (filteredView ds c) = none ∧
    meanAvgSalary (filteredView ds c) = none ∧
    uniqueCompanies (filteredView ds c) = 0 ∧
    totalPages (filteredView ds c).length k = 0 := by
  rw [hempty]
  refine ⟨rfl, rfl, rfl, rfl, ?_⟩
  rw [totalPages]
  simp

theorem empty_result_graceful_witness :
    meanAvgSalary (filteredView [rTest] ⟨[], [], 0⟩) = none :=
  (empty_result_graceful [rTest] ⟨[], [], 0⟩ 1 (by decide) rfl).2.2.1

theorem foldl_add_getD (xs : List (Option ℚ)) (q : ℚ) :
    xs.foldl (fun a x => a + x.getD 0) q = q + (xs.filterMap id).sum := by
  induction xs generalizing q with
  | nil => simp
  | cons x xs ih =>
    cases x with
    | none => simp [List.filterMap_cons, ih]
    | some a => simp [List.filterMap_cons, ih, add_assoc]

theorem length_filter_isSome (xs : List (Option ℚ)) :
    (xs.filter Option.isSome).length = (xs.filterMap id).length := by
  induction xs with
  | nil => rfl
  | cons x xs ih =>
    cases x <;> simp [List.filter_cons, List.filterMap_cons, ih]

/-- C10: the reported mean average salary skips records whose `Avg_Salary`
is undefined — it is the arithmetic mean over exactly the defined values —
and it is undefined precisely when no record in the view has a defined
`Avg_Salary`. -/
theorem meanAvgSalary_skips_undefined (v : List JobRecord) :
    (meanAvgSalary v = none ↔ v.filterMap rowAvgSalary = []) ∧
    (v.filterMap rowAvgSalary ≠ [] →
      meanAvgSalary v = some ((v.filterMap rowAvgSalary).sum /
        ((v.filterMap rowAvgSalary).length : ℚ))) := by
  have hlen : ((v.map rowAvgSalary).filter Option.isSome).length =
      (v.filterMap rowAvgSalary).length := by
    rw [length_filter_isSome, List.filterMap_map, Function.id_comp]
  have hsum : (v.map rowAvgSalary).foldl (fun a x => a + x.getD 0) 0 =
      (v.filterMap rowAvgSalary).sum := by
    rw [foldl_add_getD, List.filterMap_map, Function.id_comp, zero_add]
  by_cases he : v.filterMap rowAvgSalary = []
  · have h0 : ((v.map rowAvgSalary).filter Option.isSome).length = 0 := by
      rw [hlen, he]
      rfl
    have hnone : meanAvgSalary v = none := by
      rw [meanAvgSalary, pandasMean]
      simp only [h0, if_pos]
    exact ⟨⟨fun _ => he, fun _ => hnone⟩, fun hne => absurd he hne⟩
  · have h0 : ((v.map rowAvgSalary).filter Option.isSome).length ≠ 0 := by
      rw [hlen]
      simpa [List.length_eq_zero] using he
    have hsome : meanAvgSalary v = some ((v.filterMap rowAvgSalary).sum /
        ((v.filterMap rowAvgSalary).length : ℚ)) := by
      rw [meanAvgSalary, pandasMean]
      simp only [hsum, hlen]
      rw [if_neg (by simpa [List.length_eq_zero] using he)]
    refine ⟨⟨fun hc => absurd hc (by rw [hsome]; simp), fun hc => absurd hc he⟩,
      fun _ => hsome⟩

theorem meanAvgSalary_skips_undefined_witness :
    meanAvgSalary [rTest, { rTest with salaryEstimate := none }] = some 100000 := by
  have hse : rTest.salaryEstimate = some "$80K-$120K (Glassdoor est.)" := rfl
  have hfn : firstNumber "$80K-$120K (Glassdoor est.)" = some 80 := by decide
  have hsp : salaryPairOf "$80K-$120K (Glassdoor est.)" = some (80, 120) := by decide
  have havg : rowAvgSalary rTest = some 100000 := by
    have hmin : rowSalaryMin rTest = some 80000 := by
      rw [rowSalaryMin, hse, Option.some_bind, hfn, Option.map_some']
      norm_num
    have hmax : rowSalaryMax rTest = some 120000 := by
      rw [rowSalaryMax, hse, Option.some_bind, hsp, Option.map_some']
      norm_num
    rw [rowAvgSalary, hmin, hmax]
    norm_num
  have hnone : rowAvgSalary { rTest with salaryEstimate := none } = none := by
    rw [rowAvgSalary]
    have : rowSalaryMin { rTest with salaryEstimate := none } = none := rfl
    rw [this]
  have hfm : ([rTest, { rTest with salaryEstimate := none }]).filterMap rowAvgSalary
      = [100000] := by
    simp [List.filterMap_cons, havg, hnone]
  have h := (meanAvgSalary_skips_undefined
    [rTest, { rTest with salaryEstimate := none }]).2 (by rw [hfm]; simp)
  rw [h, hfm]
  norm_num

theorem insertCountDesc_perm (p : String × ℕ) (l : List (String × ℕ)) :
    (insertCountDesc p l).Perm (p :: l) := by
  induction l with
  | nil => exact List.Perm.refl _
  | cons q qs ih =>
    rw [insertCountDesc]
    split
    · exact List.Perm.refl _
    · exact (ih.cons q).trans (List.Perm.swap p q qs)

theorem sortCountDesc_perm (l : List (String × ℕ)) : (sortCountDesc l).Perm l := by
  induction l with
  | nil => exact List.Perm.refl _
  | cons p ps ih =>
    rw [sortCountDesc]
    exact (insertCountDesc_perm p (sortCountDesc ps)).trans (ih.cons p)

theorem pairwise_insertCountDesc {p : String × ℕ} {l : List (String × ℕ)}
    (h : List.Pairwise (fun a b => b.2 ≤ a.2) l) :
    List.Pairwise (fun a b => b.2 ≤ a.2) (insertCountDesc p l) := by
  induction l with
  | nil => simp [insertCountDesc]
  | cons q qs ih =>
    rw [List.pairwise_cons] at h
    rw [insertCountDesc]
    split
    · rename_i hle
      rw [List.pairwise_cons]
      refine ⟨fun a ha => ?_, List.pairwise_cons.mpr h⟩
      rcases List.mem_cons.mp ha with rfl | ha
      · exact hle
      · exact le_trans (h.1 a ha) hle
    · rename_i hgt
      rw [List.pairwise_cons]
      refine ⟨fun a ha => ?_, ih h.2⟩
      rcases List.mem_cons.mp ((insertCountDesc_perm p qs).subset ha) with rfl | ha
      · omega
      · exact h.1 a ha

theorem pairwise_sortCountDesc (l : List (String × ℕ)) :
    List.Pairwise (fun a b => b.2 ≤ a.2) (sortCountDesc l) := by
  induction l with
  | nil => exact List.Pairwise.nil
  | cons p ps ih => exact pairwise_insertCountDesc ih

theorem filter_insertCountDesc_pos {p : String × ℕ} {l : List (String × ℕ)}
    {m : ℕ} (hp : p.2 = m) :
    (insertCountDesc p l).filter (fun q => q.2 == m) =
      p :: l.filter (fun q => q.2 == m) := by
  induction l with
  | nil => simp [insertCountDesc, List.filter_cons, hp]
  | cons q qs ih =>
    rw [insertCountDesc]
    split
    · rename_i hle
      simp [List.filter_cons, hp]
    · rename_i hgt
      have hq : (q.2 == m) = false := by
        simp only [beq_eq_false_iff_ne, ne_eq]
        omega
      simp [List.filter_cons, hq, ih]

theorem filter_insertCountDesc_neg {p : String × ℕ} {l : List (String × ℕ)}
    {m : ℕ} (hp : p.2 ≠ m) :
    (insertCountDesc p l).filter (fun q => q.2 == m) =
      l.filter (fun q => q.2 == m) := by
  induction l with
  | nil => simp [insertCountDesc, List.filter_cons, hp]
  | cons q qs ih =>
    rw [insertCountDesc]
    split
    · simp [List.filter_cons, hp]
    · simp [List.filter_cons, ih]

theorem filter_sortCountDesc (l : List (String × ℕ)) (m : ℕ) :
    (sortCountDesc l).filter (fun q => q.2 == m) =
      l.filter (fun q => q.2 == m) := by
  induction l with
  | nil => rfl
  | cons p ps ih =>
    rw [sortCountDesc]
    by_cases hp : p.2 = m
    · rw [filter_insertCountDesc_pos hp, ih, List.filter_cons]
      simp [hp]
    · rw [filter_insertCountDesc_neg hp, ih, List.filter_cons]
      simp [hp]

theorem mem_valueCounts {xs : List String} {p : String × ℕ}
    (h : p ∈ valueCounts xs) : p.2 = xs.count p.1 := by
  rw [valueCounts] at h
  obtain ⟨v, _, hv⟩ := List.mem_map.mp h
  rw [← hv]

/-- C8: the top-N table is at most `n` entries, sorted by count descending;
every reported count is the true occurrence count in the view; and the sort
is a stable permutation of the first-appearance count table, so ties keep
first-encountered order. -/
theorem topField_sorted_counts_stable (v : List JobRecord)
    (proj : JobRecord → Option String) (n : ℕ) :
    (topField v proj n).length ≤ n ∧
    List.Pairwise (fun p q => q.2 ≤ p.2) (topField v proj n) ∧
    (∀ p ∈ topField v proj n, p.2 = (v.filterMap proj).count p.1) ∧
    (sortCountDesc (valueCounts (v.filterMap proj))).Perm
      (valueCounts (v.filterMap proj)) ∧
    (∀ m, (sortCountDesc (valueCounts (v.filterMap proj))).filter
        (fun q => q.2 == m) =
      (valueCounts (v.filterMap proj)).filter (fun q => q.2 == m)) := by
  refine ⟨List.length_take_le _ _, ?_, fun p hp => ?_, sortCountDesc_perm _,
    fun m => filter_sortCountDesc _ m⟩
  · exact List.Pairwise.sublist (List.take_sublist _ _) (pairwise_sortCountDesc _)
  · have h1 : p ∈ sortCountDesc (valueCounts (v.filterMap proj)) :=
      List.mem_of_mem_take hp
    exact mem_valueCounts ((sortCountDesc_perm _).subset h1)

theorem topField_sorted_counts_stable_witness :
    (topField [rTest] (fun r => r.jobTitle) 10).length ≤ 10 :=
  (topField_sorted_counts_stable [rTest] (fun r => r.jobTitle) 10).1

theorem stringMk_data (s : String) : String.mk s.data = s := rfl

theorem encodeRow_single (f : String) : encodeRow [f] = encodeField f := rfl

theorem encodeRow_cons (f g : String) (gs : List String) :
    encodeRow (f :: g :: gs) = encodeField f ++ ',' :: encodeRow (g :: gs) := rfl

theorem csvParse_eof_done (acc : List (List String)) :
    csvParse [] false [] [] acc = some acc.reverse := by
  rw [csvParse.eq_def]
  simp

theorem csvParse_step_ord {c : Char} (h1 : c ≠ ',') (h2 : c ≠ '\n') (h3 : c ≠ '"')
    (cs : List Char) (field : List Char) (row : List String)
    (acc : List (List String)) :
    csvParse (c :: cs) false field row acc =
      csvParse cs false (c :: field) row acc := by
  rw [csvParse.eq_def]
  simp [h1, h2, h3]

theorem csvParse_step_comma (cs : List Char) (field : List Char)
    (row : List String) (acc : List (List String)) :
    csvParse (',' :: cs) false field row acc =
      csvParse cs false [] (String.mk field.reverse :: row) acc := by
  rw [csvParse.eq_def]
  simp

theorem csvParse_step_newline (cs : List Char) (field : List Char)
    (row : List String) (acc : List (List String)) :
    csvParse ('\n' :: cs) false field row acc =
      csvParse cs false [] [] ((String.mk field.reverse :: row).reverse :: acc) := by
  rw [csvParse.eq_def]
  simp [(by decide : ¬('\n' = ','))]

theorem csvParse_step_openQuote (cs : List Char) (row : List String)
    (acc : List (List String)) :
    csvParse ('"' :: cs) false [] row acc = csvParse cs true [] row acc := by
  rw [csvParse.eq_def]
  simp [(by decide : ¬('"' = ',')), (by decide : ¬('"' = '\n'))]

theorem csvParse_step_quote2 (cs : List Char) (field : List Char)
    (row : List String) (acc : List (List String)) :
    csvParse ('"' :: '"' :: cs) true field row acc =
      csvParse cs true ('"' :: field) row acc := by
  rw [csvParse.eq_def]
  simp

theorem csvParse_step_closeQuote {cs : List Char} (h : cs.head? ≠ some '"')
    (field : List Char) (row : List String) (acc : List (List String)) :
    csvParse ('"' :: cs) true field row acc = csvParse cs false field row acc := by
  rw [csvParse.eq_def]
  simp [h]

theorem csvParse_step_qchar {c : Char} (hc : c ≠ '"') (cs : List Char)
    (field : List Char) (row : List String) (acc : List (List String)) :
    csvParse (c :: cs) true field row acc =
      csvParse cs true (c :: field) row acc := by
  rw [csvParse.eq_def]
  simp [hc]

theorem csvParse_ordinary {d : List Char}
    (hd : ∀ c ∈ d, c ≠ ',' ∧ c ≠ '\n' ∧ c ≠ '"') :
    ∀ rest field row acc, csvParse (d ++ rest) false field row acc =
      csvParse rest false (d.reverse ++ field) row acc := by
  induction d with
  | nil =>
    intro rest field row acc
    rw [List.nil_append, List.reverse_nil, List.nil_append]
  | cons c d ih =>
    intro rest field row acc
    obtain ⟨h1, h2, h3⟩ := hd c (List.mem_cons_self _ _)
    rw [List.cons_append, csvParse_step_ord h1 h2 h3,
      ih (fun x hx => hd x (List.mem_cons_of_mem c hx)) rest (c :: field) row acc,
      List.reverse_cons, List.append_assoc, List.singleton_append]

theorem csvParse_escaped (d : List Char) :
    ∀ rest field row acc, csvParse (escapeChars d ++ rest) true field row acc =
      csvParse rest true (d.reverse ++ field) row acc := by
  induction d with
  | nil =>
    intro rest field row acc
    rw [escapeChars, List.nil_append, List.reverse_nil, List.nil_append]
  | cons c d ih =>
    intro rest field row acc
    rw [escapeChars, escapeChar]
    by_cases hc : c = '"'
    · subst hc
      rw [if_pos rfl, List.append_assoc, List.cons_append, List.cons_append,
        List.nil_append, csvParse_step_quote2, ih rest ('"' :: field) row acc,
        List.reverse_cons, List.append_assoc, List.singleton_append]
    · rw [if_neg hc, List.append_assoc, List.cons_append, List.nil_append,
        csvParse_step_qchar hc, ih rest (c :: field) row acc,
        List.reverse_cons, List.append_assoc, List.singleton_append]

theorem csvParse_field (f : String) {rest : List Char}
    (hrest : rest.head? ≠ some '"') :
    ∀ row acc, csvParse (encodeField f ++ rest) false [] row acc =
      csvParse rest false f.data.reverse row acc := by
  intro row acc
  rw [encodeField]
  by_cases hq : needsQuote f
  · rw [if_pos hq, List.cons_append, List.append_assoc, List.singleton_append,
      csvParse_step_openQuote, csvParse_escaped f.data ('"' :: rest) [] row acc,
      List.append_nil, csvParse_step_closeQuote hrest]
  · rw [if_neg hq]
    have hall : ∀ c ∈ f.data, c ≠ ',' ∧ c ≠ '\n' ∧ c ≠ '"' := by
      intro c hc
      rw [needsQuote] at hq
      simp only [Bool.not_eq_true, List.any_eq_false] at hq
      have hco := hq c hc
      simp only [Bool.or_eq_false_iff, beq_eq_false_iff_ne, ne_eq] at hco
      exact ⟨hco.1.1.1, hco.1.2, hco.1.1.2⟩
    rw [csvParse_ordinary hall rest [] row acc, List.append_nil]

theorem csvParse_row : ∀ (fs : List String), fs ≠ [] →
    ∀ (rest : List Char) (row : List String) (acc : List (List String)),
      csvParse (encodeRow fs ++ '\n' :: rest) false [] row acc =
        csvParse rest false [] [] ((row.reverse ++ fs) :: acc) := by
  intro fs
  induction fs with
  | nil => intro h; exact absurd rfl h
  | cons f fs ih =>
    intro _ rest row acc
    cases fs with
    | nil =>
      rw [encodeRow_single,
        csvParse_field f (by intro hco; exact absurd (Option.some.inj hco) (by decide)),
        csvParse_step_newline, List.reverse_reverse, stringMk_data,
        List.reverse_cons]
    | cons g gs =>
      rw [encodeRow_cons, List.append_assoc, List.cons_append,
        csvParse_field f (by intro hco; exact absurd (Option.some.inj hco) (by decide)),
        csvParse_step_comma, List.reverse_reverse, stringMk_data,
        ih (by simp) rest (f :: row) acc,
        List.reverse_cons, List.append_assoc, List.singleton_append]

theorem csvParse_rows : ∀ (rows : List (List String)), (∀ r ∈ rows, r ≠ []) →
    ∀ acc, csvParse (encodeCsv rows) false [] [] acc =
      some (acc.reverse ++ rows) := by
  intro rows
  induction rows with
  | nil =>
    intro _ acc
    rw [encodeCsv, csvParse_eof_done, List.append_nil]
  | cons r rs ih =>
    intro hne acc
    rw [encodeCsv, csvParse_row r (hne r (List.mem_cons_self _ _)) _ [] acc,
      ih (fun x hx => hne x (List.mem_cons_of_mem r hx)) _,
      List.reverse_nil, List.nil_append, List.reverse_cons, List.append_assoc,
      List.singleton_append]

/-- C9: serializing the filtered view to CSV over the fixed display
columns, without an index column, and re-parsing the text yields exactly
the header row plus one row per record with the displayed cell contents —
the round trip loses nothing. -/
theorem csv_export_roundtrip (v : List JobRecord) :
    parseCsv (csvExport v) = some (displayHeader :: v.map displayRow) := by
  rw [parseCsv, csvExport, csvParse_rows]
  · rw [List.reverse_nil, List.nil_append]
  · intro r hr
    rcases List.mem_cons.mp hr with rfl | hr
    · simp [displayHeader]
    · obtain ⟨x, _, hx⟩ := List.mem_map.mp hr
      rw [← hx, displayRow]
      simp

end App02
